import Mathlib

/-!
Verification of the fluent-expressions regex builder.

The repository consists of a fluent wrapper (`src/src/SolidExpression.js`),
its TypeScript declarations and its tests.  The wrapper delegates the node
algebra to `RegexAst.bs` and the serializer to `StringifyAst.bs`, two
compiled ReScript modules that are not part of the visible sources; those
two modules are modelled here from the spec (each such definition carries a
doc comment starting with `Modelled from the spec:`).  Everything else is a
direct translation of `src/src/SolidExpression.js`.
-/

/-- Error taxonomy (spec section 7).  `assertionErr` is the even-element
assertion raised by `makeRanges` in `src/src/SolidExpression.js`. -/
inductive SxError where
  | assertionErr
  | invalidRange
  | invalidGroupName
  | unsupportedQuantRange
  deriving DecidableEq

/-- Built-in class tags (spec section 3, `BuiltIn` variant). -/
inductive BTag where
  | whitespaceTag
  | digitTag
  | wordTag
  | tabTag
  | linebreakTag
  | anyCharTag
  deriving DecidableEq

mutual
/-- The expression node AST (spec section 3).  Children of `sequence` and
`alternation` are kept in the mutually-defined `NodeList` so that the
serializer is structurally recursive.  `quantified` stores the repetition
bounds as integers (`max = none` means unbounded). -/
inductive Node where
  | empty
  | literal (source : String) (escaped : Bool)
  | sequence (children : NodeList)
  | alternation (children : NodeList)
  | quantified (child : Node) (min : Int) (max : Option Int) (lazy : Bool)
  | group (child : Node) (name : Option String)
  | lookaround (child : Node) (negate : Bool)
  | charClass (chars : List Char) (pairs : List (String × String)) (negate : Bool)
  | builtin (tag : BTag)
/-- A cons-list of nodes (the ordered children of a sequence/alternation). -/
inductive NodeList where
  | nil
  | cons (head : Node) (tail : NodeList)
end

/-- Appending two child lists. -/
def NodeList.append : NodeList → NodeList → NodeList
  | .nil, ys => ys
  | .cons x xs, ys => .cons x (NodeList.append xs ys)

/-- JS `String.prototype.startsWith`, computed on the character data. -/
def strStartsWith (s p : String) : Bool := p.data.isPrefixOf s.data

/-- JS `String.prototype.endsWith`, computed on the character data. -/
def strEndsWith (s p : String) : Bool := p.data.isSuffixOf s.data

/-- `source.replace(/^\^/, "")` from `#preSanitize`: drop one leading caret. -/
def stripCaret (s : String) : String :=
  if strStartsWith s "^" then String.mk (s.data.drop 1) else s

/-- `source.replace(/\$$/, "")` from `#preSanitize`: drop one trailing dollar. -/
def stripDollar (s : String) : String :=
  if strEndsWith s "$" then String.mk (s.data.dropLast) else s

/-- The regex metacharacters escaped by the literal sanitizer
(spec section 4.3). -/
def escapedChars : List Char :=
  ['.', '*', '+', '?', '^', '$', '\x7b', '\x7d', '(', ')', '|', '[', ']', '\\', '/']

/-- Escape of a single character of a raw string literal. -/
def escapeLitChar (c : Char) : String :=
  if c ∈ escapedChars then String.mk ['\\', c] else String.mk [c]

/-- Modelled from the spec: the literal sanitizer (section 4.3) of the
missing Sanitizer module — escape every regex metacharacter of a raw
string so the text matches itself literally. -/
def sanitize (s : String) : String := String.join (s.data.map escapeLitChar)

/-- Characters escaped inside a `[...]` character class (spec section 4.2). -/
def classEscapedChars : List Char := [']', '^', '-', '\\']

/-- Escape of a single character appearing inside a character class. -/
def escapeClassChar (c : Char) : String :=
  if c ∈ classEscapedChars then String.mk ['\\', c] else String.mk [c]

/-- Escape every character of a class-range endpoint. -/
def escapeClassString (s : String) : String :=
  String.join (s.data.map escapeClassChar)

/-- JS `x | 0`: coercion to a 32-bit signed integer, as applied by the
`repeat`/`repeatExactly` wrapper methods in `src/src/SolidExpression.js`. -/
def toInt32 (n : Int) : Int := (n + 2 ^ 31) % 2 ^ 32 - 2 ^ 31

/-- Clamping to a non-negative integer. -/
def clampNN (i : Int) : Int := if i < 0 then 0 else i

/-- Lexicographic "strictly after" on the character data of two strings,
matching the JS string comparison used for range bounds. -/
def charListGt : List Char → List Char → Bool
  | [], _ => false
  | _ :: _, [] => true
  | a :: as, b :: bs =>
    if b.val < a.val then true else if a.val < b.val then false else charListGt as bs

/-- `lo` is lexicographically after `hi`. -/
def lexAfter (lo hi : String) : Bool := charListGt lo.data hi.data

/-- Deduplication of a character list, keeping first occurrences
(spec section 4.1, `anyOf`-family constructors). -/
def dedupChars (l : List Char) : List Char :=
  l.foldl (fun acc c => if c ∈ acc then acc else acc ++ [c]) []

/-- Modelled from the spec: `then_` of the missing `RegexAst.bs` module
(spec section 4.1) — if `a` is a `Sequence`, append `b`'s nodes flattened
one level, otherwise build `Sequence([a, b])`; `Empty` is the neutral
element of concatenation (required by the spec's section 8 scenarios). -/
def then_ (a b : Node) : Node :=
  match a, b with
  | .empty, b => b
  | a, .empty => a
  | .sequence xs, .sequence ys => .sequence (xs.append ys)
  | .sequence xs, b => .sequence (xs.append (.cons b .nil))
  | a, b => .sequence (.cons a (.cons b .nil))

/-- Modelled from the spec: `maybe` of the missing `RegexAst.bs`
(section 4.1) — `then(a, Quantified(b, 0, 1, lazy=false))`. -/
def maybe (a b : Node) : Node := then_ a (.quantified b 0 (some 1) false)

/-- Flattening of nested `Alternation` children, one level. -/
def flattenAlt : NodeList → NodeList
  | .nil => .nil
  | .cons (.alternation ys) rest => ys.append (flattenAlt rest)
  | .cons x rest => .cons x (flattenAlt rest)

/-- Modelled from the spec: `alt` of the missing `RegexAst.bs`
(section 4.1) — builds an `Alternation`, flattening nested alternations
one level and never flattening sequences. -/
def alt (nodes : NodeList) : Node := .alternation (flattenAlt nodes)

/-- Modelled from the spec: `or_` of the missing `RegexAst.bs`. -/
def or_ (a b : Node) : Node := alt (.cons a (.cons b .nil))

/-- Modelled from the spec: `anything` of the missing `RegexAst.bs` —
`then(a, Quantified(BuiltIn(any), 0, unbounded, lazy))`. -/
def anything (a : Node) (lazy : Bool) : Node :=
  then_ a (.quantified (.builtin .anyCharTag) 0 none lazy)

/-- Modelled from the spec: `something` of the missing `RegexAst.bs` —
`then(a, Quantified(BuiltIn(any), 1, unbounded))`. -/
def something (a : Node) : Node :=
  then_ a (.quantified (.builtin .anyCharTag) 1 none false)

/-- Modelled from the spec: `anythingBut` of the missing `RegexAst.bs`. -/
def anythingBut (a : Node) (chars : String) (lazy : Bool) : Node :=
  then_ a (.quantified (.charClass (dedupChars chars.data) [] true) 0 none lazy)

/-- Modelled from the spec: `somethingBut` of the missing `RegexAst.bs`. -/
def somethingBut (a : Node) (chars : String) : Node :=
  then_ a (.quantified (.charClass (dedupChars chars.data) [] true) 1 none false)

/-- Modelled from the spec: `anyOf` of the missing `RegexAst.bs` — the
character class composed zero-or-more times via `then` (section 4.1). -/
def anyOf (a : Node) (chars : String) : Node :=
  then_ a (.quantified (.charClass (dedupChars chars.data) [] false) 0 none false)

/-- Modelled from the spec: `someOf` of the missing `RegexAst.bs` — the
character class composed one-or-more times via `then`. -/
def someOf (a : Node) (chars : String) : Node :=
  then_ a (.quantified (.charClass (dedupChars chars.data) [] false) 1 none false)

/-- Modelled from the spec: `oneOf` of the missing `RegexAst.bs` — the
character class composed exactly once via `then`. -/
def oneOf (a : Node) (chars : String) : Node :=
  then_ a (.charClass (dedupChars chars.data) [] false)

/-- Modelled from the spec: `ranges` of the missing `RegexAst.bs`
(section 4.1) — fails with `InvalidRangeError` if any pair has its lower
bound lexicographically after its upper bound, otherwise composes the
range character class via `then`. -/
def ranges (a : Node) (pairs : List (String × String)) (negate : Bool) :
    Except SxError Node :=
  if pairs.any (fun p => lexAfter p.1 p.2) then .error .invalidRange
  else .ok (then_ a (.charClass [] pairs negate))

/-- Modelled from the spec: `followedBy` of the missing `RegexAst.bs` —
positive lookahead composed via `then`. -/
def followedBy (a b : Node) : Node := then_ a (.lookaround b false)

/-- Modelled from the spec: `notFollowedBy` of the missing `RegexAst.bs` —
negative lookahead composed via `then`. -/
def notFollowedBy (a b : Node) : Node := then_ a (.lookaround b true)

/-- Modelled from the spec: `repeat` of the missing `RegexAst.bs`
(section 4.1) — min/max coerced to non-negative integers, omitted max
means unbounded. -/
def repeat_ (a : Node) (min max : Option Int) : Node :=
  .quantified a (clampNN (min.getD 0)) (max.map clampNN) false

/-- Modelled from the spec: `repeatExact` of the missing `RegexAst.bs` —
sets `min = max = n`, coerced to a non-negative integer. -/
def repeatExact (a : Node) (n : Option Int) : Node :=
  .quantified a (clampNN (n.getD 0)) (some (clampNN (n.getD 0))) false

/-- Modelled from the spec: `oneOrMore` of the missing `RegexAst.bs` —
`Quantified(a, 1, unbounded)`. -/
def oneOrMore (a : Node) : Node := .quantified a 1 none false

/-- Modelled from the spec: `zeroOrMore` of the missing `RegexAst.bs` —
`Quantified(a, 0, unbounded)`. -/
def zeroOrMore (a : Node) (lazy : Bool) : Node := .quantified a 0 none lazy

/-- ASCII word character, for capture-group names. -/
def isWordChar (c : Char) : Bool := c.isAlphanum || c = '_'

/-- Group-name grammar of spec section 4.1: ASCII word characters,
non-numeric-leading, non-empty. -/
def validGroupName (s : String) : Bool :=
  match s.data with
  | [] => false
  | c :: cs => (c.isAlpha || c = '_') && cs.all isWordChar

/-- Modelled from the spec: `group` of the missing `RegexAst.bs`
(section 4.1) — wraps in `Group`, failing with `InvalidGroupNameError`
for an illegal name. -/
def group (a : Node) (name : Option String) : Except SxError Node :=
  match name with
  | none => .ok (.group a none)
  | some n => if validGroupName n then .ok (.group a (some n)) else .error .invalidGroupName

/-- Insertion of a flag character into a strictly sorted duplicate-free
flag list (the canonical flag-set representation, spec sections 3, 4.2). -/
def insertFlag (c : Char) : List Char → List Char
  | [] => [c]
  | d :: ds =>
    if c < d then c :: d :: ds
    else if c = d then d :: ds
    else d :: insertFlag c ds

/-- Canonicalization of a flag string into a sorted duplicate-free list. -/
def normalizeFlags (s : String) : List Char :=
  s.data.foldl (fun acc c => insertFlag c acc) []

/-- The root wrapper (spec section 3): a node plus the `^` anchor (`pre`,
the JS `prefix` field), the `$` anchor (`suffix`) and the flag set. -/
structure RootNode where
  node : Node
  pre : String
  suffix : String
  flags : List Char

/-- `getNode` of the missing `RegexAst.bs`: the wrapped node. -/
def getNode (r : RootNode) : Node := r.node

/-- Modelled from the spec: `setNode` of the missing `RegexAst.bs` — a
copy-on-write field update returning a new root (spec section 9). -/
def setNode (r : RootNode) (n : Node) : RootNode := { r with node := n }

/-- Modelled from the spec: `setPrefix` of the missing `RegexAst.bs` —
copy-on-write update of the `^` anchor field. -/
def setPre (r : RootNode) (p : String) : RootNode := { r with pre := p }

/-- Modelled from the spec: `setSuffix` of the missing `RegexAst.bs` —
copy-on-write update of the `$` anchor field. -/
def setSuffix (r : RootNode) (s : String) : RootNode := { r with suffix := s }

/-- Modelled from the spec: `addFlags` of the missing `RegexAst.bs`
(section 4.1) — set-union over the root's flag set. -/
def addFlags (r : RootNode) (f : String) : RootNode :=
  { r with flags := f.data.foldl (fun acc c => insertFlag c acc) r.flags }

/-- Modelled from the spec: `removeFlags` of the missing `RegexAst.bs`
(section 4.1) — set-difference over the root's flag set. -/
def removeFlags (r : RootNode) (f : String) : RootNode :=
  { r with flags := r.flags.filter (fun c => !(f.data.contains c)) }

/-- The argument record of `createRoot`, mirroring the object literal
passed by the `SolidExpression` constructor. -/
structure CreateArgs where
  source : Option String := none
  node : Option Node := none
  flags : Option String := none
  pre : Option String := none
  suffix : Option String := none
  sanitize : Option Bool := none

/-- Modelled from the spec: `createRoot` of the missing `RegexAst.bs` —
builds the root wrapper from the constructor arguments: an explicit node
wins, an empty (or missing) source degrades to the `Empty` node
(section 4.3), a raw source becomes a `Literal` escaped iff `sanitize`
was requested, and the flag baseline is `"gi"` (section 3). -/
def createRoot (a : CreateArgs) : RootNode :=
  { node :=
      match a.node with
      | some n => n
      | none =>
        match a.source with
        | none => .empty
        | some s => if s = "" then .empty else .literal s (a.sanitize.getD true)
    pre := a.pre.getD ""
    suffix := a.suffix.getD ""
    flags := normalizeFlags (a.flags.getD "gi") }

/-- The compiled result of the serializer: regex source text plus the
normalized flag string (spec section 4.2). -/
structure Compiled where
  source : String
  flags : String
  deriving DecidableEq

/-- The shortest standard quantifier token for a bound pair
(spec section 4.2). -/
def quantTok (min : Int) (max : Option Int) : String :=
  match max with
  | none =>
    if min = 1 then "+"
    else if min = 0 then "*"
    else "\x7b" ++ toString min ++ ",\x7d"
  | some mx =>
    if min = 0 && mx = 1 then "?"
    else if min = mx then "\x7b" ++ toString min ++ "\x7d"
    else "\x7b" ++ toString min ++ "," ++ toString mx ++ "\x7d"

/-- Atomicity in the rendering sense (spec glossary and section 4.2): a
fragment needing no extra grouping under a quantifier — a single
character, a single built-in class token, a `Group` or a `CharClass`. -/
def isAtomic : Node → Bool
  | .literal s esc => (if esc then sanitize s else s).data.length == 1
  | .group _ _ => true
  | .charClass _ _ _ => true
  | .builtin t => !(t == .wordTag) && !(t == .linebreakTag)
  | _ => false

/-- The native shorthand token of a built-in class (spec section 4.2). -/
def builtinTok : BTag → String
  | .whitespaceTag => "\\s"
  | .digitTag => "\\d"
  | .wordTag => "\\w+"
  | .tabTag => "\\t"
  | .linebreakTag => "\\r\\n|\\r|\\n"
  | .anyCharTag => "."

/-- Rendering of one `(lo, hi)` range inside a character class. -/
def classRangeTok (p : String × String) : String :=
  escapeClassString p.1 ++ "-" ++ escapeClassString p.2

/-- Whether a quantifier has finite bounds with `min > max`
(spec section 4.2, `UnsupportedQuantifierRangeError`). -/
def badQuantRange (mn : Int) (mx : Option Int) : Bool :=
  match mx with
  | none => false
  | some m => decide (m < mn)

mutual
/-- Modelled from the spec: the recursive precedence-aware renderer of the
missing `StringifyAst.bs` module (spec section 4.2).  Fails with
`UnsupportedQuantifierRangeError` when a quantifier has `min > max`. -/
def stringifyNode : Node → Except SxError String
  | .empty => .ok ""
  | .literal s esc => .ok (if esc then sanitize s else s)
  | .sequence children => do
      let parts ← stringifySeqList children
      pure (String.join parts)
  | .alternation children => do
      let parts ← stringifyAltList children
      pure (String.join (List.intersperse "|" parts))
  | .quantified child mn mx lazy =>
      if badQuantRange mn mx then .error .unsupportedQuantRange
      else do
        let body ← stringifyNode child
        let wrapped := if isAtomic child then body else "(?:" ++ body ++ ")"
        let tok := quantTok mn mx
        pure (wrapped ++ (if lazy then tok ++ "?" else tok))
  | .group child name => do
      let body ← stringifyNode child
      pure (match name with
        | none => "(" ++ body ++ ")"
        | some n => "(?<" ++ n ++ ">" ++ body ++ ")")
  | .lookaround child negate => do
      let body ← stringifyNode child
      pure ((if negate then "(?!" else "(?=") ++ body ++ ")")
  | .charClass chars pairs negate =>
      .ok ("[" ++ (if negate then "^" else "")
        ++ String.join (chars.map escapeClassChar)
        ++ String.join (pairs.map classRangeTok) ++ "]")
  | .builtin t => .ok (builtinTok t)

/-- Rendering of sequence children in order; a child that is itself an
`Alternation` is wrapped in a non-capturing group (spec section 4.2). -/
def stringifySeqList : NodeList → Except SxError (List String)
  | .nil => .ok []
  | .cons c cs => do
      let s ← stringifyNode c
      let wrapped := match c with
        | .alternation _ => "(?:" ++ s ++ ")"
        | _ => s
      let rest ← stringifySeqList cs
      pure (wrapped :: rest)

/-- Rendering of alternation branches; branches are never auto-grouped
individually (spec section 4.2). -/
def stringifyAltList : NodeList → Except SxError (List String)
  | .nil => .ok []
  | .cons c cs => do
      let s ← stringifyNode c
      let rest ← stringifyAltList cs
      pure (s :: rest)
end

/-- The canonical flag string: the normalized (sorted, duplicate-free)
flag list joined with no separator (spec section 4.2). -/
def stringifyFlags (l : List Char) : String := String.mk l

/-- Modelled from the spec: `stringify` of the missing `StringifyAst.bs` —
renders a root wrapper to `{source, flags}`, prepending/appending the
anchors to the fully rendered body (spec section 4.2). -/
def stringify (r : RootNode) : Except SxError Compiled := do
  let body ← stringifyNode r.node
  pure { source := RootNode.pre r ++ body ++ r.suffix, flags := stringifyFlags r.flags }

/-- The kinds of values the fluent API accepts (plus the unsupported
kinds the entry point must degrade on): JS strings, numbers, native
regexes (source and flags), expression instances (carrying their root),
`null`, `undefined` and any other object. -/
inductive JSValue where
  | str (s : String)
  | num (n : Int)
  | rgx (source : String) (flags : String)
  | expr (r : RootNode)
  | nullv
  | undef
  | other

/-- `SolidExpression.#preSanitize` from `src/src/SolidExpression.js`
(lines 203-229): classify an input into `createRoot` arguments.  A native
regex first has the canonical empty-pattern source `"(?:)"` replaced by
`""`, then a leading `^` and a trailing `$` are split off into the anchor
fields, the remaining source is passed through unsanitized and the flags
are carried over.  Strings are passed with `sanitize = true`; numbers are
stringified unsanitized; anything else becomes an empty unsanitized
source. -/
def preSanitize : JSValue → CreateArgs
  | .rgx src flags =>
    let source := if src = "(?:)" then "" else src
    { source := some (stripDollar (stripCaret source))
      flags := some flags
      sanitize := some false
      pre := some (if strStartsWith source "^" then "^" else "")
      suffix := some (if strEndsWith source "$" then "$" else "") }
  | .num n => { source := some (toString n), sanitize := some false }
  | .str s => { source := some s, sanitize := some true }
  | _ => { source := some "", sanitize := some false }

/-- `SolidExpression.of` from `src/src/SolidExpression.js` (lines
125-129): an expression instance is returned as-is, anything else is
pre-sanitized and wrapped in a fresh root. -/
def ofVal : JSValue → RootNode
  | .expr r => r
  | v => createRoot (preSanitize v)

/-- The static `SolidExpression.empty` primitive (`new
SolidExpression({node: empty})`). -/
def emptyFx : RootNode := createRoot { node := some .empty }

/-- The static `SolidExpression.whitespace` primitive. -/
def whitespaceFx : RootNode := createRoot { node := some (.builtin .whitespaceTag) }

/-- The static `SolidExpression.digit` primitive. -/
def digitFx : RootNode := createRoot { node := some (.builtin .digitTag) }

/-- The static `SolidExpression.tab` primitive. -/
def tabFx : RootNode := createRoot { node := some (.builtin .tabTag) }

/-- The static `SolidExpression.word` primitive. -/
def wordFx : RootNode := createRoot { node := some (.builtin .wordTag) }

/-- The static `SolidExpression.linebreak` primitive. -/
def linebreakFx : RootNode := createRoot { node := some (.builtin .linebreakTag) }

/-- `then(value)` from `src/src/SolidExpression.js` (lines 270-277): the
suffix anchor is cleared, then the argument's node is concatenated. -/
def fxThen (r : RootNode) (v : JSValue) : RootNode :=
  setNode (setSuffix r "") (then_ (getNode r) (ofVal v).node)

/-- `maybe(value)` (lines 285-292): the suffix anchor is cleared, then
the argument is appended as an optional branch. -/
def fxMaybe (r : RootNode) (v : JSValue) : RootNode :=
  setNode (setSuffix r "") (maybe (getNode r) (ofVal v).node)

/-- `or(value)` (lines 300-307): alternation; the root is otherwise kept. -/
def fxOr (r : RootNode) (v : JSValue) : RootNode :=
  setNode r (or_ (getNode r) (ofVal v).node)

/-- `anything(lazy)` (lines 315-319). -/
def fxAnything (r : RootNode) (lazy : Bool) : RootNode :=
  setNode r (anything (getNode r) lazy)

/-- `anythingBut(value, lazy)` (lines 328-335); the argument characters
are already joined to a string. -/
def fxAnythingBut (r : RootNode) (s : String) (lazy : Bool) : RootNode :=
  setNode r (anythingBut (getNode r) s lazy)

/-- `something()` (lines 342-346). -/
def fxSomething (r : RootNode) : RootNode :=
  setNode r (something (getNode r))

/-- `somethingBut(value)` (lines 354-361). -/
def fxSomethingBut (r : RootNode) (s : String) : RootNode :=
  setNode r (somethingBut (getNode r) s)

/-- `anyOf(value)` (lines 369-376). -/
def fxAnyOf (r : RootNode) (s : String) : RootNode :=
  setNode r (anyOf (getNode r) s)

/-- `someOf(value)` (lines 383-390). -/
def fxSomeOf (r : RootNode) (s : String) : RootNode :=
  setNode r (someOf (getNode r) s)

/-- `oneOf(value)` (lines 398-405). -/
def fxOneOf (r : RootNode) (s : String) : RootNode :=
  setNode r (oneOf (getNode r) s)

/-- `assertFollowedBy(value)` (lines 440-450). -/
def fxFollowedBy (r : RootNode) (v : JSValue) : RootNode :=
  setNode r (followedBy (getNode r) (ofVal v).node)

/-- `assertNotFollowedBy(value)` (lines 423-433). -/
def fxNotFollowedBy (r : RootNode) (v : JSValue) : RootNode :=
  setNode r (notFollowedBy (getNode r) (ofVal v).node)

/-- `makeRanges` from `src/src/SolidExpression.js` (lines 39-57): the
flattened boundary values must come in pairs — an odd count fails the
`assert` (an `AssertionError`) before any pair, and hence any
`CharClass`, is built. -/
def chunkPairs : List String → List (String × String)
  | x :: y :: rest => (x, y) :: chunkPairs rest
  | _ => []

/-- The even-element check and pairing of `makeRanges` (lines 39-57). -/
def makeRanges (l : List String) : Except SxError (List (String × String)) :=
  if l.length % 2 = 0 then .ok (chunkPairs l) else .error .assertionErr

/-- `charOfRanges(...characterRanges)` (lines 459-466): validate and pair
the flattened boundary values, then build the positive range class. -/
def fxCharOfRanges (r : RootNode) (l : List String) : Except SxError RootNode := do
  let ps ← makeRanges l
  let n ← ranges (getNode r) ps false
  pure (setNode r n)

/-- `charNotOfRanges(...characterRanges)` (lines 474-481). -/
def fxCharNotOfRanges (r : RootNode) (l : List String) : Except SxError RootNode := do
  let ps ← makeRanges l
  let n ← ranges (getNode r) ps true
  pure (setNode r n)

/-- `lineBreak()` (lines 490-492): `then` of the linebreak primitive. -/
def fxLineBreak (r : RootNode) : RootNode := fxThen r (.expr linebreakFx)

/-- `tab()` (lines 508-510). -/
def fxTab (r : RootNode) : RootNode := fxThen r (.expr tabFx)

/-- `word()` (lines 517-519). -/
def fxWord (r : RootNode) : RootNode := fxThen r (.expr wordFx)

/-- `digit()` (lines 526-528). -/
def fxDigit (r : RootNode) : RootNode := fxThen r (.expr digitFx)

/-- `whitespace()` (lines 535-537). -/
def fxWhitespace (r : RootNode) : RootNode := fxThen r (.expr whitespaceFx)

/-- `addFlag(flag)` (lines 546-548). -/
def fxAddFlag (r : RootNode) (f : String) : RootNode := addFlags r f

/-- `removeFlag(flag)` (lines 555-557). -/
def fxRemoveFlag (r : RootNode) (f : String) : RootNode := removeFlags r f

/-- `withAnyCase(enable)` (lines 565-567). -/
def fxWithAnyCase (r : RootNode) (enable : Bool) : RootNode :=
  if enable then fxAddFlag r "i" else fxRemoveFlag r "i"

/-- `stopAtFirst(enable)` (lines 574-576). -/
def fxStopAtFirst (r : RootNode) (enable : Bool) : RootNode :=
  if enable then fxAddFlag r "g" else fxRemoveFlag r "g"

/-- `searchOneLine(enable)` (lines 583-585). -/
def fxSearchOneLine (r : RootNode) (enable : Bool) : RootNode :=
  if enable then fxRemoveFlag r "m" else fxAddFlag r "m"

/-- `repeat(min, max)` (lines 598-609): each bound, when not null, is
coerced with the JS `| 0` (32-bit) conversion before being handed to the
algebra; the root node is replaced, the anchors are kept as they are. -/
def fxRepeat (r : RootNode) (min max : Option Int) : RootNode :=
  setNode r (repeat_ (getNode r) (min.map toInt32) (max.map toInt32))

/-- `repeatExactly(n)` (lines 619-626). -/
def fxRepeatExactly (r : RootNode) (n : Option Int) : RootNode :=
  setNode r (repeatExact (getNode r) (n.map toInt32))

/-- `oneOrMore()` (lines 633-637). -/
def fxOneOrMore (r : RootNode) : RootNode :=
  setNode r (oneOrMore (getNode r))

/-- `zeroOrMore(lazy)` (lines 645-649): the source passes `lazy` as a
spurious third argument to `setNode`, so it is dropped and the node is
quantified non-lazily. -/
def fxZeroOrMore (r : RootNode) (_lazy : Bool) : RootNode :=
  setNode r (zeroOrMore (getNode r) false)

/-- `capture(name)` (lines 658-665). -/
def fxCapture (r : RootNode) (name : Option String) : Except SxError RootNode :=
  (group (getNode r) name).map (setNode r)

/-- `assertStartOfLine(enable)` (lines 250-252). -/
def fxAssertStartOfLine (r : RootNode) (enable : Bool) : RootNode :=
  setPre r (if enable then "^" else "")

/-- `assertEndOfLine(enable)` (lines 260-262). -/
def fxAssertEndOfLine (r : RootNode) (enable : Bool) : RootNode :=
  setSuffix r (if enable then "$" else "")

/-- The entry point `Sx(value)` from `src/src/SolidExpression.js` (lines
718-733), with the one-shot warning latch of `writeWarning` (lines
698-708) made explicit.  Arguments: the input value, whether
`NODE_ENV === "production"`, and the latch (`warn.warned`).  Result: the
returned expression's root, the latch after the call, and whether a
warning was emitted by this call. -/
def SxEntry (v : JSValue) (production latched : Bool) : RootNode × Bool × Bool :=
  match v with
  | .str _ => (ofVal v, latched, false)
  | .num _ => (ofVal v, latched, false)
  | .rgx _ _ => (ofVal v, latched, false)
  | .expr _ => (ofVal v, latched, false)
  | .nullv => (emptyFx, latched, false)
  | .undef => (emptyFx, latched, false)
  | .other =>
    if production then (emptyFx, latched, false) else (emptyFx, true, !latched)

/-- One step of the fluent instance API, used to quantify over "every
fluent operation": each constructor carries the already-coerced arguments
of the corresponding method of `src/src/SolidExpression.js`. -/
inductive FluentOp where
  | thenOp (v : JSValue)
  | maybeOp (v : JSValue)
  | orOp (v : JSValue)
  | anythingOp (lazy : Bool)
  | anythingButOp (s : String) (lazy : Bool)
  | somethingOp
  | somethingButOp (s : String)
  | anyOfOp (s : String)
  | someOfOp (s : String)
  | oneOfOp (s : String)
  | followedByOp (v : JSValue)
  | notFollowedByOp (v : JSValue)
  | charOfRangesOp (l : List String)
  | charNotOfRangesOp (l : List String)
  | lineBreakOp
  | tabOp
  | wordOp
  | digitOp
  | whitespaceOp
  | addFlagOp (f : String)
  | removeFlagOp (f : String)
  | withAnyCaseOp (enable : Bool)
  | stopAtFirstOp (enable : Bool)
  | searchOneLineOp (enable : Bool)
  | repeatOp (min max : Option Int)
  | repeatExactlyOp (n : Option Int)
  | oneOrMoreOp
  | zeroOrMoreOp (lazy : Bool)
  | captureOp (name : Option String)
  | assertStartOp (enable : Bool)
  | assertEndOp (enable : Bool)

/-- Evaluation of one fluent operation on a receiver.  The first
component is the receiver's root after the call — every method of
`src/src/SolidExpression.js` builds its result via `SolidExpression.from`
or a fresh instance and never assigns `this.#rootNode`, so it is the
unchanged `r`.  The second component is the new expression's root (an
`Except`, since `charOfRanges`/`charNotOfRanges`/`capture` can fail). -/
def applyOp (op : FluentOp) (r : RootNode) : RootNode × Except SxError RootNode :=
  match op with
  | .thenOp v => (r, .ok (fxThen r v))
  | .maybeOp v => (r, .ok (fxMaybe r v))
  | .orOp v => (r, .ok (fxOr r v))
  | .anythingOp lazy => (r, .ok (fxAnything r lazy))
  | .anythingButOp s lazy => (r, .ok (fxAnythingBut r s lazy))
  | .somethingOp => (r, .ok (fxSomething r))
  | .somethingButOp s => (r, .ok (fxSomethingBut r s))
  | .anyOfOp s => (r, .ok (fxAnyOf r s))
  | .someOfOp s => (r, .ok (fxSomeOf r s))
  | .oneOfOp s => (r, .ok (fxOneOf r s))
  | .followedByOp v => (r, .ok (fxFollowedBy r v))
  | .notFollowedByOp v => (r, .ok (fxNotFollowedBy r v))
  | .charOfRangesOp l => (r, fxCharOfRanges r l)
  | .charNotOfRangesOp l => (r, fxCharNotOfRanges r l)
  | .lineBreakOp => (r, .ok (fxLineBreak r))
  | .tabOp => (r, .ok (fxTab r))
  | .wordOp => (r, .ok (fxWord r))
  | .digitOp => (r, .ok (fxDigit r))
  | .whitespaceOp => (r, .ok (fxWhitespace r))
  | .addFlagOp f => (r, .ok (fxAddFlag r f))
  | .removeFlagOp f => (r, .ok (fxRemoveFlag r f))
  | .withAnyCaseOp enable => (r, .ok (fxWithAnyCase r enable))
  | .stopAtFirstOp enable => (r, .ok (fxStopAtFirst r enable))
  | .searchOneLineOp enable => (r, .ok (fxSearchOneLine r enable))
  | .repeatOp mn mx => (r, .ok (fxRepeat r mn mx))
  | .repeatExactlyOp n => (r, .ok (fxRepeatExactly r n))
  | .oneOrMoreOp => (r, .ok (fxOneOrMore r))
  | .zeroOrMoreOp lazy => (r, .ok (fxZeroOrMore r lazy))
  | .captureOp name => (r, fxCapture r name)
  | .assertStartOp enable => (r, .ok (fxAssertStartOfLine r enable))
  | .assertEndOp enable => (r, .ok (fxAssertEndOfLine r enable))

/-- Discriminator for `assertEndOfLine(true)`, the one operation allowed
to (re)introduce the `$` anchor. -/
def isAssertEndTrue : FluentOp → Bool
  | .assertEndOp true => true
  | _ => false

/-- The full UUID-builder chain of the test
"should build a uuid regexp via SolidExpressions"
(`src/test/SolidExpression.test.js`, lines 3-16): `Fx()` yields the empty
expression, `hexBlock` is shared and branched from three times. -/
def uuidFx : Except SxError RootNode := do
  let hexBlock ← fxCharOfRanges emptyFx ["0", "9", "a", "f"]
  let step1 := fxThen (fxRepeatExactly hexBlock (some 8)) (.str "-")
  let inner := fxRepeatExactly (fxThen (fxRepeatExactly hexBlock (some 4)) (.str "-")) (some 3)
  let step2 := fxThen step1 (.expr inner)
  let step3 := fxThen step2 (.expr (fxRepeatExactly hexBlock (some 12)))
  pure (fxSearchOneLine (fxWithAnyCase step3 true) true)

theorem mem_insertFlag (x c : Char) (l : List Char) :
    x ∈ insertFlag c l ↔ x = c ∨ x ∈ l := by
  induction l with
  | nil => simp [insertFlag]
  | cons d ds ih =>
    by_cases h1 : c < d
    · simp [insertFlag, h1, List.mem_cons]
    · by_cases h2 : c = d
      · subst h2
        simp [insertFlag, h1, List.mem_cons]
      · simp [insertFlag, h1, h2, List.mem_cons, ih]
        tauto

theorem insertFlag_sorted (c : Char) (l : List Char) (h : l.Sorted (· < ·)) :
    (insertFlag c l).Sorted (· < ·) := by
  induction l with
  | nil => simp [insertFlag]
  | cons d ds ih =>
    rw [List.sorted_cons] at h
    obtain ⟨hd, hs⟩ := h
    by_cases h1 : c < d
    · rw [insertFlag, if_pos h1, List.sorted_cons]
      refine ⟨?_, List.sorted_cons.mpr ⟨hd, hs⟩⟩
      intro b hb
      rcases List.mem_cons.mp hb with rfl | hb2
      · exact h1
      · exact h1.trans (hd b hb2)
    · by_cases h2 : c = d
      · rw [insertFlag, if_neg h1, if_pos h2]
        exact List.sorted_cons.mpr ⟨hd, hs⟩
      · rw [insertFlag, if_neg h1, if_neg h2, List.sorted_cons]
        refine ⟨?_, ih hs⟩
        intro b hb
        rcases (mem_insertFlag b c ds).mp hb with rfl | hb2
        · exact lt_of_le_of_ne (le_of_not_lt h1) (Ne.symm h2)
        · exact hd b hb2

theorem foldlInsert_sorted (cs : List Char) :
    ∀ acc : List Char, acc.Sorted (· < ·) →
      (cs.foldl (fun a c => insertFlag c a) acc).Sorted (· < ·) := by
  induction cs with
  | nil => intro acc h; exact h
  | cons c cs ih => intro acc h; exact ih _ (insertFlag_sorted c acc h)

theorem mem_foldlInsert (cs : List Char) :
    ∀ (acc : List Char) (x : Char),
      x ∈ cs.foldl (fun a c => insertFlag c a) acc ↔ x ∈ acc ∨ x ∈ cs := by
  induction cs with
  | nil => intro acc x; simp
  | cons c cs ih =>
    intro acc x
    rw [List.foldl_cons, ih, mem_insertFlag]
    simp [List.mem_cons]
    tauto

theorem normalizeFlags_sorted (s : String) : (normalizeFlags s).Sorted (· < ·) :=
  foldlInsert_sorted s.data [] (by simp)

theorem mem_normalizeFlags (s : String) (x : Char) :
    x ∈ normalizeFlags s ↔ x ∈ s.data := by
  rw [normalizeFlags, mem_foldlInsert]
  simp

theorem insertFlag_idem (c : Char) (l : List Char) :
    insertFlag c (insertFlag c l) = insertFlag c l := by
  induction l with
  | nil => simp [insertFlag]
  | cons d ds ih =>
    by_cases h1 : c < d
    · rw [insertFlag, if_pos h1, insertFlag, if_neg (lt_irrefl c), if_pos rfl]
    · by_cases h2 : c = d
      · rw [insertFlag, if_neg h1, if_pos h2, insertFlag, if_neg h1, if_pos h2]
      · rw [insertFlag, if_neg h1, if_neg h2, insertFlag, if_neg h1, if_neg h2, ih]

theorem sorted_nodup (l : List Char) (h : l.Sorted (· < ·)) : l.Nodup :=
  List.Pairwise.imp (fun hab => ne_of_lt hab) h

theorem sorted_eq_of_mem_iff (l1 l2 : List Char)
    (h1 : l1.Sorted (· < ·)) (h2 : l2.Sorted (· < ·))
    (hm : ∀ c, c ∈ l1 ↔ c ∈ l2) : l1 = l2 := by
  haveI : IsAntisymm Char (· < ·) := ⟨fun a b hab hba => (lt_asymm hab hba).elim⟩
  exact List.eq_of_perm_of_sorted
    ((List.perm_ext_iff_of_nodup (sorted_nodup l1 h1) (sorted_nodup l2 h2)).mpr hm) h1 h2

/-- Claim C1: serializing a `Quantified` node whose child is the sequence
`[a, b]` with bounds `min = 2`, `max = 4` wraps the non-atomic child in a
non-capturing group before appending the quantifier, so the rendered
source has the shape `(?:...)\x7b2,4\x7d` and the repetition applies to
the whole rendered `a b` unit, never to `b` alone. -/
theorem quantified_sequence_grouping (a b : Node) (s : String)
    (h : stringifyNode (.sequence (.cons a (.cons b .nil))) = .ok s) :
    stringifyNode (.quantified (.sequence (.cons a (.cons b .nil))) 2 (some 4) false) =
      .ok ("(?:" ++ s ++ ")\x7b2,4\x7d") := by
  rw [show stringifyNode (.quantified (.sequence (.cons a (.cons b .nil))) 2 (some 4) false) =
      (stringifyNode (.sequence (.cons a (.cons b .nil))) >>= fun body =>
        pure (("(?:" ++ body ++ ")") ++ "\x7b2,4\x7d") : Except SxError String) from rfl]
  rw [h]
  show Except.ok (("(?:" ++ s ++ ")") ++ "\x7b2,4\x7d") = _
  rw [String.append_assoc]
  rfl

/-- Witness for C1 at `a = Literal "a"`, `b = Literal "b"`. -/
theorem quantified_sequence_grouping_witness :
    stringifyNode (.sequence (.cons (.literal "a" true) (.cons (.literal "b" true) .nil))) =
      .ok "ab" ∧
    stringifyNode (.quantified
        (.sequence (.cons (.literal "a" true) (.cons (.literal "b" true) .nil)))
        2 (some 4) false) =
      .ok ("(?:" ++ "ab" ++ ")\x7b2,4\x7d") :=
  ⟨rfl, quantified_sequence_grouping (.literal "a" true) (.literal "b" true) "ab" rfl⟩

/-- Claim C2: the UUID-builder chain — the hex character class repeated
exactly 8 times, a literal dash, (the class repeated exactly 4 times then
a dash) repeated exactly 3 times, the class repeated exactly 12 times,
with the case-insensitive flag on and multiline disabled — compiles to
exactly the source `[0-9a-f]\x7b8\x7d-(?:[0-9a-f]\x7b4\x7d-)\x7b3\x7d[0-9a-f]\x7b12\x7d`
with flags exactly `gi`. -/
theorem uuid_chain_compiles : uuidFx >>= stringify =
    .ok { source := "[0-9a-f]\x7b8\x7d-(?:[0-9a-f]\x7b4\x7d-)\x7b3\x7d[0-9a-f]\x7b12\x7d"
          flags := "gi" } := rfl

/-- Claim C4: every fluent operation returns a new expression value and
leaves the receiver's root untouched — after any operation the receiver's
root is the very value it held before, so compiling it yields the same
`\x7bsource, flags\x7d` as before and the same expression value can be
shared and branched from multiple times. -/
theorem fluent_ops_leave_receiver_unchanged (op : FluentOp) (r : RootNode) :
    (applyOp op r).1 = r ∧ stringify (applyOp op r).1 = stringify r := by
  cases op <;> exact ⟨rfl, rfl⟩

/-- Claim C10: a value that is already an expression instance is returned
as-is by `of` (and by the entry point), with no re-sanitization; hence
`of` is idempotent. -/
theorem of_idempotent :
    (∀ r : RootNode, ofVal (.expr r) = r) ∧
    (∀ v : JSValue, ofVal (.expr (ofVal v)) = ofVal v) ∧
    (∀ (r : RootNode) (production latched : Bool),
      (SxEntry (.expr r) production latched).1 = r) :=
  ⟨fun _ => rfl, fun _ => rfl, fun _ _ _ => rfl⟩

/-- Counterexample to claim C6 as stated: `null` is an input value that is
not a string, number, native regex or expression instance, yet the first
entry-point call with it (fresh latch, non-production) emits no warning at
all — so "the first such call warns" is false. -/
theorem null_input_first_call_does_not_warn :
    ¬((SxEntry .nullv false false).2.2 = true) := by decide

/-- Claim C6 as amended: the entry point degrades every unsupported input
(`null`, `undefined`, other objects) to the empty expression and never
raises; a non-null unsupported value warns outside production exactly when
the latch is clear, and latches; once latched (or for `null`/`undefined`,
or in production) no warning is emitted. -/
theorem unsupported_input_degrades_and_warns_once :
    (∀ production latched : Bool,
      (SxEntry .other production latched).1 = emptyFx ∧
      (SxEntry .nullv production latched).1 = emptyFx ∧
      (SxEntry .undef production latched).1 = emptyFx) ∧
    (∀ latched : Bool,
      (SxEntry .other false latched).2.2 = !latched ∧
      (SxEntry .other false latched).2.1 = true) ∧
    ((SxEntry .other false true).2.2 = false) ∧
    (∀ production latched : Bool,
      (SxEntry .nullv production latched).2 = (latched, false) ∧
      (SxEntry .undef production latched).2 = (latched, false)) ∧
    (∀ latched : Bool, (SxEntry .other true latched).2 = (latched, false)) := by
  refine ⟨?_, ?_, rfl, ?_, ?_⟩
  · intro production latched
    cases production <;> exact ⟨rfl, rfl, rfl⟩
  · intro latched
    exact ⟨rfl, rfl⟩
  · intro production latched
    exact ⟨rfl, rfl⟩
  · intro latched
    rfl

/-- Counterexample to claim C9 as stated: with an odd number of boundary
values (the single value `"a"`) the ranges constructor does not fail with
an `InvalidRangeError` — it fails with the even-element `AssertionError`
of `makeRanges`. -/
theorem odd_ranges_not_invalid_range_error :
    ¬(fxCharOfRanges emptyFx ["a"] = .error .invalidRange) := by
  intro h
  have h2 : (Except.error SxError.assertionErr : Except SxError RootNode) =
      .error .invalidRange := h
  exact absurd (Except.error.inj h2) (by decide)

/-- Claim C9 as amended: an odd count of boundary values fails with the
`makeRanges` `AssertionError`, raised before any `CharClass` node is
constructed; an inverted pair (lower bound lexicographically after the
upper bound) fails with an `InvalidRangeError`; otherwise the validated
pairs become the range class. -/
theorem ranges_error_behaviour (r : RootNode) (l : List String) :
    (¬(l.length % 2 = 0) →
      fxCharOfRanges r l = .error .assertionErr ∧
      fxCharNotOfRanges r l = .error .assertionErr) ∧
    (l.length % 2 = 0 → (chunkPairs l).any (fun p => lexAfter p.1 p.2) = true →
      fxCharOfRanges r l = .error .invalidRange ∧
      fxCharNotOfRanges r l = .error .invalidRange) ∧
    (l.length % 2 = 0 → (chunkPairs l).any (fun p => lexAfter p.1 p.2) = false →
      fxCharOfRanges r l =
        .ok (setNode r (then_ (getNode r) (.charClass [] (chunkPairs l) false)))) := by
  refine ⟨?_, ?_, ?_⟩
  · intro hodd
    constructor <;>
      simp [fxCharOfRanges, fxCharNotOfRanges, makeRanges, if_neg hodd, Bind.bind, Except.bind]
  · intro heven hany
    constructor <;>
      simp [fxCharOfRanges, fxCharNotOfRanges, makeRanges, ranges, if_pos heven, hany,
        Bind.bind, Except.bind]
  · intro heven hany
    simp [fxCharOfRanges, makeRanges, ranges, if_pos heven, hany, Bind.bind, Except.bind,
      Pure.pure, Except.pure]

/-- Witness for C9 (amended): the inverted pair `["b","a"]` fails with
`InvalidRangeError`. -/
theorem ranges_error_behaviour_witness :
    fxCharOfRanges emptyFx ["b", "a"] = .error .invalidRange ∧
    fxCharNotOfRanges emptyFx ["b", "a"] = .error .invalidRange :=
  (ranges_error_behaviour emptyFx ["b", "a"]).2.1 (by decide) (by decide)

/-- Counterexample to claim C5 as stated: the native empty regex has
source `"(?:)"`, and the Sanitizer does not pass that remaining source
through unchanged — it normalizes it to the empty body. -/
theorem empty_regex_source_not_passed_through :
    ¬(stringifyNode (ofVal (.rgx "(?:)" "gi")).node = .ok "(?:)") := by
  intro h
  have h2 : (Except.ok "" : Except SxError String) = .ok "(?:)" := h
  exact absurd (Except.ok.inj h2) (by decide)

/-- Claim C5 as amended: for every native regex input whose source is not
the canonical empty-pattern source `"(?:)"`, a leading `^` is stripped
into the root's `pre` anchor and a trailing `$` into its `suffix` anchor,
the remaining source is carried into the body unchanged (not escaped), and
the regex's flag set becomes the root's starting flag set. -/
theorem regex_input_sanitizer (s fl : String) (h : ¬(s = "(?:)")) :
    RootNode.pre (ofVal (.rgx s fl)) = (if strStartsWith s "^" then "^" else "") ∧
    (ofVal (.rgx s fl)).suffix = (if strEndsWith s "$" then "$" else "") ∧
    stringifyNode (ofVal (.rgx s fl)).node = .ok (stripDollar (stripCaret s)) ∧
    (∀ c : Char, c ∈ (ofVal (.rgx s fl)).flags ↔ c ∈ fl.data) := by
  have hsrc : (if s = "(?:)" then "" else s) = s := if_neg h
  refine ⟨?_, ?_, ?_, ?_⟩
  · show ((preSanitize (.rgx s fl)).pre.getD "") = _
    simp [preSanitize, hsrc]
  · show ((preSanitize (.rgx s fl)).suffix.getD "") = _
    simp [preSanitize, hsrc]
  · show stringifyNode (createRoot (preSanitize (.rgx s fl))).node = _
    simp only [preSanitize, hsrc, createRoot]
    by_cases he : stripDollar (stripCaret s) = ""
    · rw [he]
      simp [stringifyNode]
    · simp [he, stringifyNode]
  · intro c
    show c ∈ normalizeFlags ((preSanitize (.rgx s fl)).flags.getD "gi") ↔ _
    simp [preSanitize, mem_normalizeFlags]

/-- Witness for C5 (amended) at the regex `/^abc$/gim`. -/
theorem regex_input_sanitizer_witness :
    RootNode.pre (ofVal (.rgx "^abc$" "gim")) = "^" ∧
    (ofVal (.rgx "^abc$" "gim")).suffix = "$" ∧
    stringifyNode (ofVal (.rgx "^abc$" "gim")).node = .ok "abc" ∧
    ('m' ∈ (ofVal (.rgx "^abc$" "gim")).flags ↔ 'm' ∈ "gim".data) := by
  obtain ⟨h1, h2, h3, h4⟩ := regex_input_sanitizer "^abc$" "gim" (by decide)
  exact ⟨h1.trans (by rfl), h2.trans (by rfl), h3.trans (by rfl), h4 'm'⟩

/-- Claim C8: `repeat(min, max)` stores coerced non-negative integer
bounds on the `Quantified` node (the wrapper applies the JS 32-bit `| 0`
conversion and the algebra clamps to non-negative), an omitted `max`
stays unbounded, and `repeatExactly(n)` stores `min = max = n` coerced
the same way. -/
theorem repeat_bounds_coerced (r : RootNode) (mn mx n : Option Int) :
    (∃ a b, getNode (fxRepeat r mn mx) = .quantified (getNode r) a b false ∧
      0 ≤ a ∧ (∀ b2, b = some b2 → 0 ≤ b2) ∧ (mx = none → b = none)) ∧
    (∃ a, getNode (fxRepeatExactly r n) = .quantified (getNode r) a (some a) false ∧
      0 ≤ a) := by
  have hcl : ∀ i : Int, 0 ≤ clampNN i := by
    intro i
    unfold clampNN
    split <;> omega
  refine ⟨⟨clampNN ((mn.map toInt32).getD 0), (mx.map toInt32).map clampNN,
      rfl, hcl _, ?_, ?_⟩,
    ⟨clampNN ((n.map toInt32).getD 0), rfl, hcl _⟩⟩
  · intro b2 hb
    cases mx with
    | none => simp at hb
    | some m =>
      have hb2 : b2 = clampNN (toInt32 m) := (Option.some.inj hb).symm
      rw [hb2]
      exact hcl _
  · intro hmx
    subst hmx
    rfl

/-- Witness for C8 at `min = -2` (clamped to 0), omitted `max`, and
`n = 5`. -/
theorem repeat_bounds_coerced_witness :
    (∃ a b, getNode (fxRepeat emptyFx (some (-2)) none) =
        .quantified (getNode emptyFx) a b false ∧
      0 ≤ a ∧ (∀ b2, b = some b2 → 0 ≤ b2) ∧ ((none : Option Int) = none → b = none)) ∧
    (∃ a, getNode (fxRepeatExactly emptyFx (some 5)) =
        .quantified (getNode emptyFx) a (some a) false ∧ 0 ≤ a) :=
  repeat_bounds_coerced emptyFx (some (-2)) none (some 5)

theorem charOfRanges_ok_suffix (r r2 : RootNode) (l : List String)
    (h : fxCharOfRanges r l = .ok r2) : r2.suffix = r.suffix := by
  unfold fxCharOfRanges makeRanges ranges at h
  by_cases hl : l.length % 2 = 0
  · rw [if_pos hl] at h
    by_cases ha : (chunkPairs l).any (fun p => lexAfter p.1 p.2)
    · simp [ha, Bind.bind, Except.bind] at h
    · simp [ha, Bind.bind, Except.bind, Pure.pure, Except.pure] at h
      rw [← h]
      rfl
  · rw [if_neg hl] at h
    simp [Bind.bind, Except.bind] at h

theorem charNotOfRanges_ok_suffix (r r2 : RootNode) (l : List String)
    (h : fxCharNotOfRanges r l = .ok r2) : r2.suffix = r.suffix := by
  unfold fxCharNotOfRanges makeRanges ranges at h
  by_cases hl : l.length % 2 = 0
  · rw [if_pos hl] at h
    by_cases ha : (chunkPairs l).any (fun p => lexAfter p.1 p.2)
    · simp [ha, Bind.bind, Except.bind] at h
    · simp [ha, Bind.bind, Except.bind, Pure.pure, Except.pure] at h
      rw [← h]
      rfl
  · rw [if_neg hl] at h
    simp [Bind.bind, Except.bind] at h

theorem capture_ok_suffix (r r2 : RootNode) (name : Option String)
    (h : fxCapture r name = .ok r2) : r2.suffix = r.suffix := by
  unfold fxCapture group at h
  cases name with
  | none =>
    simp [Except.map] at h
    rw [← h]
    rfl
  | some n =>
    by_cases hv : validGroupName n
    · simp [hv, Except.map] at h
      rw [← h]
      rfl
    · simp [hv, Except.map] at h

/-- Counterexample to claim C3 as stated: starting from an expression
whose root suffix is `$` (after `assertEndOfLine(true)`), applying
`repeat(2, 4)` does not yield an empty suffix — `repeat` replaces only
the node and keeps the `$` anchor. -/
theorem repeat_keeps_end_anchor :
    ¬((fxRepeat (fxAssertEndOfLine emptyFx true) (some 2) (some 4)).suffix = "") := by
  decide

/-- Claim C3 as amended: `then` and `maybe` clear the suffix anchor;
`repeat` and `repeatExactly` preserve it unchanged (they do not clear
it); `assertEndOfLine(true)` sets it to `$` and is the only fluent
operation that can introduce the `$` suffix on a root that did not
already carry it. -/
theorem anchor_clearing_behaviour :
    (∀ (r : RootNode) (v : JSValue),
      (fxThen r v).suffix = "" ∧ (fxMaybe r v).suffix = "") ∧
    (∀ (r : RootNode) (mn mx n : Option Int),
      (fxRepeat r mn mx).suffix = r.suffix ∧ (fxRepeatExactly r n).suffix = r.suffix) ∧
    (∀ r : RootNode, (fxAssertEndOfLine r true).suffix = "$") ∧
    (∀ (op : FluentOp) (r r2 : RootNode), (applyOp op r).2 = .ok r2 →
      isAssertEndTrue op = false → ¬(r.suffix = "$") → ¬(r2.suffix = "$")) := by
  refine ⟨fun r v => ⟨rfl, rfl⟩, fun r mn mx n => ⟨rfl, rfl⟩, fun r => rfl, ?_⟩
  intro op r r2 h hop hne
  cases op with
  | thenOp v => rw [← Except.ok.inj h]; exact (by decide : ¬(("" : String) = "$"))
  | maybeOp v => rw [← Except.ok.inj h]; exact (by decide : ¬(("" : String) = "$"))
  | orOp v => rw [← Except.ok.inj h]; exact hne
  | anythingOp lazy => rw [← Except.ok.inj h]; exact hne
  | anythingButOp s lazy => rw [← Except.ok.inj h]; exact hne
  | somethingOp => rw [← Except.ok.inj h]; exact hne
  | somethingButOp s => rw [← Except.ok.inj h]; exact hne
  | anyOfOp s => rw [← Except.ok.inj h]; exact hne
  | someOfOp s => rw [← Except.ok.inj h]; exact hne
  | oneOfOp s => rw [← Except.ok.inj h]; exact hne
  | followedByOp v => rw [← Except.ok.inj h]; exact hne
  | notFollowedByOp v => rw [← Except.ok.inj h]; exact hne
  | charOfRangesOp l => rw [charOfRanges_ok_suffix r r2 l h]; exact hne
  | charNotOfRangesOp l => rw [charNotOfRanges_ok_suffix r r2 l h]; exact hne
  | lineBreakOp => rw [← Except.ok.inj h]; exact (by decide : ¬(("" : String) = "$"))
  | tabOp => rw [← Except.ok.inj h]; exact (by decide : ¬(("" : String) = "$"))
  | wordOp => rw [← Except.ok.inj h]; exact (by decide : ¬(("" : String) = "$"))
  | digitOp => rw [← Except.ok.inj h]; exact (by decide : ¬(("" : String) = "$"))
  | whitespaceOp => rw [← Except.ok.inj h]; exact (by decide : ¬(("" : String) = "$"))
  | addFlagOp f => rw [← Except.ok.inj h]; exact hne
  | removeFlagOp f => rw [← Except.ok.inj h]; exact hne
  | withAnyCaseOp enable => rw [← Except.ok.inj h]; cases enable <;> exact hne
  | stopAtFirstOp enable => rw [← Except.ok.inj h]; cases enable <;> exact hne
  | searchOneLineOp enable => rw [← Except.ok.inj h]; cases enable <;> exact hne
  | repeatOp mn mx => rw [← Except.ok.inj h]; exact hne
  | repeatExactlyOp n => rw [← Except.ok.inj h]; exact hne
  | oneOrMoreOp => rw [← Except.ok.inj h]; exact hne
  | zeroOrMoreOp lazy => rw [← Except.ok.inj h]; exact hne
  | captureOp name => rw [capture_ok_suffix r r2 name h]; exact hne
  | assertStartOp enable => rw [← Except.ok.inj h]; exact hne
  | assertEndOp enable =>
    cases enable with
    | true => exact absurd hop (by decide)
    | false => rw [← Except.ok.inj h]; exact (by decide : ¬(("" : String) = "$"))

/-- Witness for C3 (amended): `then` clears the anchor, `repeat` keeps
it, and `or` cannot introduce it on an unanchored root. -/
theorem anchor_clearing_behaviour_witness :
    (fxThen emptyFx (.str "a")).suffix = "" ∧
    (fxRepeat (fxAssertEndOfLine emptyFx true) (some 2) (some 4)).suffix =
      (fxAssertEndOfLine emptyFx true).suffix ∧
    ¬((fxOr emptyFx (.str "x")).suffix = "$") := by
  refine ⟨(anchor_clearing_behaviour.1 emptyFx (.str "a")).1,
    (anchor_clearing_behaviour.2.1 (fxAssertEndOfLine emptyFx true)
      (some 2) (some 4) (some 0)).1,
    anchor_clearing_behaviour.2.2.2 (.orOp (.str "x")) emptyFx
      (fxOr emptyFx (.str "x")) rfl rfl (by decide)⟩

/-- Claim C7: flag sets are kept sorted and duplicate-free, the baseline
before any explicit add/remove is `gi`, `addFlag` is idempotent, and two
flag sets with the same members serialize to the identical flag string. -/
theorem flag_set_invariants :
    (∀ a : CreateArgs, a.flags = none → (createRoot a).flags = ['g', 'i']) ∧
    (∀ a : CreateArgs, ((createRoot a).flags).Sorted (· < ·) ∧ ((createRoot a).flags).Nodup) ∧
    (∀ (r : RootNode) (f : String), r.flags.Sorted (· < ·) →
      ((addFlags r f).flags.Sorted (· < ·) ∧ (addFlags r f).flags.Nodup ∧
        (removeFlags r f).flags.Sorted (· < ·) ∧ (removeFlags r f).flags.Nodup)) ∧
    (∀ r : RootNode, addFlags (addFlags r "i") "i" = addFlags r "i") ∧
    (∀ l1 l2 : List Char, l1.Sorted (· < ·) → l2.Sorted (· < ·) →
      (∀ c, c ∈ l1 ↔ c ∈ l2) → stringifyFlags l1 = stringifyFlags l2) := by
  refine ⟨?_, ?_, ?_, ?_, ?_⟩
  · intro a ha
    show normalizeFlags (a.flags.getD "gi") = _
    rw [ha]
    rfl
  · intro a
    have hs : ((createRoot a).flags).Sorted (· < ·) := normalizeFlags_sorted _
    exact ⟨hs, sorted_nodup _ hs⟩
  · intro r f hr
    have h1 : ((addFlags r f).flags).Sorted (· < ·) := foldlInsert_sorted f.data r.flags hr
    have h2 : ((removeFlags r f).flags).Sorted (· < ·) := List.Pairwise.filter _ hr
    exact ⟨h1, sorted_nodup _ h1, h2, sorted_nodup _ h2⟩
  · intro r
    show ({ r with flags := insertFlag 'i' (insertFlag 'i' r.flags) } : RootNode) =
      { r with flags := insertFlag 'i' r.flags }
    rw [insertFlag_idem]
  · exact fun l1 l2 h1 h2 hm => congrArg String.mk (sorted_eq_of_mem_iff l1 l2 h1 h2 hm)

/-- Witness for C7 at the default root and concrete flag lists. -/
theorem flag_set_invariants_witness :
    (createRoot { node := some Node.empty } : RootNode).flags = ['g', 'i'] ∧
    (addFlags emptyFx "mg").flags.Sorted (· < ·) ∧
    addFlags (addFlags emptyFx "i") "i" = addFlags emptyFx "i" ∧
    stringifyFlags ['g', 'i'] = stringifyFlags ['g', 'i'] := by
  obtain ⟨p1, p2, p3, p4, p5⟩ := flag_set_invariants
  exact ⟨p1 _ rfl, (p3 emptyFx "mg" (by decide)).1, p4 emptyFx,
    p5 ['g', 'i'] ['g', 'i'] (by decide) (by decide) (fun c => Iff.rfl)⟩
